import Mathlib

/-!
# Verification of the LIFT training loop (`LIFT/training/train.py`)

Shallow embedding of `train_one_epoch` and its helpers. Tensors are treated
as opaque values (a type parameter `α`) except where a claim is about scalar
arithmetic, in which case values are modelled as rationals (`ℚ`); Python
dicts become association lists that preserve insertion order, exactly as
CPython dicts do. Side-effecting calls of the loop body (forward passes,
backward, gradient clipping, optimizer/scaler operations) are modelled as an
event trace so that ordering and cardinality claims can be stated.
-/

namespace LIFT

/-- One observable action of the training-loop body.  Each constructor
corresponds to one call site in `train_one_epoch`. -/
inductive Event where
  /-- `scheduler(step)` (line 120), recording the step value passed. -/
  | schedulerCall (step : Nat)
  /-- `optimizer.zero_grad()` (lines 126 and 172). -/
  | zeroGrad
  /-- `model(images, text=texts)`; the flag is `true` for a gradient-tracked
  forward pass and `false` for the `torch.no_grad()` caching pass. -/
  | modelForward (grad : Bool)
  /-- `dist_model(images, texts)` — the frozen teacher forward (line 134). -/
  | teacherForward
  /-- `loss(..., output_dict=True)` (lines 136 and 189). -/
  | lossCompute
  /-- `backward(total_loss, scaler)` (lines 141 and 195). -/
  | backward
  /-- `torch.nn.utils.clip_grad_norm_(model.parameters(), c)` with max-norm `c`. -/
  | clipNorm (c : ℚ)
  /-- `optimizer.synchronize()` — horovod gradient synchronization (line 199). -/
  | hvdSynchronize
  /-- `scaler.unscale_(optimizer)` (lines 200 and 207). -/
  | unscale
  /-- `scaler.step(optimizer)` (lines 204 and 209). -/
  | scalerStep
  /-- `scaler.update()` (line 210). -/
  | scalerUpdate
  /-- `optimizer.step()` (line 214). -/
  | optimizerStep
  /-- the in-place clamp of `logit_scale` (line 223). -/
  | clampLogitScale
  deriving DecidableEq, Repr

/-- The gradient-finalization block of `train_one_epoch` (lines 197-214),
as the sequence of events it performs, branching on whether a mixed-precision
scaler is active (`scaler is not None`), whether horovod is active
(`args.horovod`), and whether a gradient clip norm is configured
(`args.grad_clip_norm is not None`). -/
def finalizeTrace (scalerActive horovod : Bool) (gradClipNorm : Option ℚ) : List Event :=
  if scalerActive then
    if horovod then
      [Event.hvdSynchronize, Event.unscale] ++
        (match gradClipNorm with
          | some c => [Event.clipNorm c]
          | none => []) ++
        [Event.scalerStep, Event.scalerUpdate]
    else
      (match gradClipNorm with
        | some c => [Event.unscale, Event.clipNorm c]
        | none => []) ++
        [Event.scalerStep, Event.scalerUpdate]
  else
    (match gradClipNorm with
      | some c => [Event.clipNorm c]
      | none => []) ++
      [Event.optimizerStep]

/-- The double-precision value of `math.log(100)` used at line 223 of the
source (the comment there: "we clamp to 4.6052 = ln(100)"). -/
def ln100 : ℚ := 4.605170185988092

/-- `tensor.clamp_(0, math.log(100))`: torch clamps `v` to the closed
interval by `min (max v lo) hi`. -/
def clampLogitScaleVal (v : ℚ) : ℚ := min (max v 0) ln100

/-- Lines 221-223: after the optimizer step, if the unwrapped model has a
`logit_scale` attribute (`none` models its absence), clamp it in place. -/
def postStepClamp (logitScale : Option ℚ) : Option ℚ :=
  logitScale.map clampLogitScaleVal

end LIFT

namespace LIFT

/-- `takeMatches needle hay`: `needle` is a prefix of `hay`. -/
def takeMatches : List Char → List Char → Bool
  | [], _ => true
  | _ :: _, [] => false
  | n :: ns, h :: hs => n == h && takeMatches ns hs

/-- `hasSubstring needle hay`: Python's `needle in hay` on strings. -/
def hasSubstring (needle : List Char) : List Char → Bool
  | [] => takeMatches needle []
  | c :: hs => takeMatches needle (c :: hs) || hasSubstring needle hs

/-- Line 144: `'LIFT' in args.model`. -/
def modelIsLIFT (model : String) : Bool :=
  hasSubstring "LIFT".toList model.toList

end LIFT

namespace LIFT

/-- Per-key Phase A caching (lines 155-159): each no-gradient forward's
output tensor for a key is appended to that key's cache list, so after the
`K = accum_freq` micro-batches of a window the cache holds the tensors in
batch order.  `cached i` is the tensor the no-grad pass produced for
micro-batch `i`. -/
def phaseACache (K : Nat) (cached : Nat → α) : List α :=
  (List.range K).foldl (fun acc i => acc ++ [cached i]) []

/-- Line 187: `torch.cat(accumulated[:j] + [model_out[key]] + accumulated[j+1:])`.
Python's list slicing `accumulated[:j]` is `take j` and `accumulated[j+1:]`
is `drop (j+1)`; `torch.cat` keeps the left-to-right order of its argument
list, so the loss input is this concatenation of per-slot tensors. -/
def buildLossInput (accumulated : List α) (j : Nat) (fresh : α) : List α :=
  accumulated.take j ++ [fresh] ++ accumulated.drop (j + 1)

/-- Python dict membership `k in d`, on an insertion-ordered assoc list. -/
def hasKey (k : String) (d : List (String × α)) : Bool :=
  d.any (fun p => p.1 = k)

/-- Python dict item assignment `d[k] = v`: replaces the value in place when
the key exists, otherwise appends the new entry (CPython insertion order). -/
def dictSet (d : List (String × α)) (k : String) (v : α) : List (String × α) :=
  if hasKey k d then d.map (fun p => if p.1 = k then (k, v) else p)
  else d ++ [(k, v)]

/-- `d.pop(k)` without default removes the entry. -/
def removeKey (k : String) (d : List (String × α)) : List (String × α) :=
  d.filter (fun p => p.1 ≠ k)

/-- A loss dictionary: loss-component name to scalar value, insertion order
preserved. -/
abbrev LossDict := List (String × ℚ)

/-- `sum(losses.values())` (lines 138 and 192). -/
def sumValues (d : LossDict) : ℚ := (d.map Prod.snd).sum

/-- Lines 138-139 (and 192-193): compute `total_loss` as the sum of the
values of `losses`, then insert it under the key `"loss"`.  Returns the
total passed to `backward` together with the updated dict. -/
def withTotal (losses : LossDict) : ℚ × LossDict :=
  let total := sumValues losses
  (total, dictSet losses "loss" total)

/-- Lines 179-182 of the recomputation phase: pop the required
`"logit_scale"` key (a `KeyError`, modelled as `.error`, if absent) and the
optional `"logit_bias"` key from the fresh model output; returns
`inputs_no_accum` together with the remaining output dict. -/
def popNoAccum (modelOut : List (String × α)) :
    Except String (List (String × α) × List (String × α)) :=
  match modelOut.lookup "logit_scale" with
  | none => Except.error "KeyError: logit_scale"
  | some ls =>
    let rest := removeKey "logit_scale" modelOut
    match rest.lookup "logit_bias" with
    | none => Except.ok ([("logit_scale", ls)], rest)
    | some lb =>
      Except.ok ([("logit_scale", ls), ("logit_bias", lb)], removeKey "logit_bias" rest)

/-- Lines 152-153 of the caching phase: `model_out.pop(f, None)` for
`f in ("logit_scale", "logit_bias")` — strip both keys, absence allowed. -/
def stripScaleBias (modelOut : List (String × α)) : List (String × α) :=
  removeKey "logit_bias" (removeKey "logit_scale" modelOut)

/-- The keyword-argument names passed to `loss(**inputs, **inputs_no_accum,
output_dict=True)` at line 189 during the recomputation phase: `inputs` is
keyed by the cached feature names (line 185), `inputs_no_accum` by the keys
popped from the fresh output at lines 180-182. -/
def phaseBLossKeys (accumKeys : List String) (modelOut : List (String × α)) : List String :=
  match popNoAccum modelOut with
  | Except.error _ => []
  | Except.ok (noAccum, _) => accumKeys ++ noAccum.map Prod.fst

/-- `AverageMeter` (lines 18-34): stores the last value, running sum,
count, and mean of a scalar stream.  Values are modelled as rationals;
`count` is kept rational as well because `update` receives the batch size
as its weight `n`. -/
structure AverageMeter where
  val : ℚ
  avg : ℚ
  sum : ℚ
  count : ℚ
  deriving DecidableEq, Repr

/-- `AverageMeter.reset` / `__init__`: everything zeroed (lines 21-28). -/
def AverageMeter.reset (_ : AverageMeter) : AverageMeter :=
  { val := 0, avg := 0, sum := 0, count := 0 }

/-- The state of a freshly constructed meter. -/
def AverageMeter.init : AverageMeter :=
  { val := 0, avg := 0, sum := 0, count := 0 }

/-- `AverageMeter.update(val, n)` (lines 30-34). -/
def AverageMeter.update (m : AverageMeter) (v n : ℚ) : AverageMeter :=
  let sum := m.sum + v * n
  let count := m.count + n
  { val := v, sum := sum, count := count, avg := sum / count }

/-- Lines 235-238: for each loss component, create the meter on first sight
and update it with the component's value weighted by the batch size. -/
def updateLossMeters (lossesM : List (String × AverageMeter)) (losses : LossDict)
    (batchSize : ℚ) : List (String × AverageMeter) :=
  losses.foldl
    (fun acc kv =>
      let meter := match acc.lookup kv.1 with
        | some m => m
        | none => AverageMeter.init
      dictSet acc kv.1 (meter.update kv.2 batchSize))
    lossesM

/-- The meter-visible effect of one log emission (lines 234-284): the
per-loss meters are updated with the sampled loss values, and the batch-time
and data-time meters are reset (lines 283-284).  The per-loss meters are
not reset. -/
def logEmission (lossesM : List (String × AverageMeter)) (losses : LossDict)
    (batchSize : ℚ) (batchTimeM dataTimeM : AverageMeter) :
    List (String × AverageMeter) × AverageMeter × AverageMeter :=
  (updateLossMeters lossesM losses batchSize, batchTimeM.reset, dataTimeM.reset)

/-- Lines 289-308 for one completed step: `files` is the set of checkpoint
step numbers present on disk (file `step_{c}.pt` modelled by its step
number `c`).  When `args.save_logs` and a nonzero interval `S` are set and
`completed % S == 0`, the checkpoint for `completed` is written, and when
`args.delete_prev_step_ckpt` is set the file for `completed - S` is removed
if present (absence is not an error: `os.path.exists` guards the removal). -/
def ckptUpdate (saveLogs deletePrev : Bool) (S : Nat) (files : List Nat)
    (completed : Nat) : List Nat :=
  if saveLogs ∧ S ≠ 0 ∧ completed % S = 0 then
    let files := files ++ [completed]
    if deletePrev then files.filter (fun c => c ≠ completed - S) else files
  else files

/-- The checkpoint files on disk after the completed steps `1, 2, ..., N`
have each run the checkpointing block. -/
def ckptRun (saveLogs deletePrev : Bool) (S : Nat) : Nat → List Nat
  | 0 => []
  | n + 1 => ckptUpdate saveLogs deletePrev S (ckptRun saveLogs deletePrev S n) (n + 1)

theorem phaseACache_eq_map (K : Nat) (cached : Nat → α) :
    phaseACache K cached = (List.range K).map cached := by
  have h : ∀ (l : List Nat) (acc : List α),
      l.foldl (fun acc i => acc ++ [cached i]) acc = acc ++ l.map cached := by
    intro l
    induction l with
    | nil => intro acc; simp
    | cons x xs ih =>
      intro acc
      simp [List.foldl_cons, ih, List.append_assoc]
  simp [phaseACache, h]

/-- The configuration fields of `args` that the claims depend on. -/
structure Config where
  /-- `args.accum_freq`: micro-batches per optimizer step. -/
  accumFreq : Nat
  /-- `args.model`: the configured model name. -/
  modelName : String
  /-- `args.distill`: whether a frozen teacher model is used. -/
  distill : Bool
  /-- `scaler is not None`: mixed-precision loss scaling active. -/
  scalerActive : Bool
  /-- `args.horovod`: distributed gradient synchronization backend active. -/
  horovod : Bool
  /-- `args.grad_clip_norm`: the configurable clip norm, `none` if unset. -/
  gradClipNorm : Option ℚ
  /-- `args.skip_scheduler`: disables the per-batch scheduler call. -/
  skipScheduler : Bool

/-- Line 117: `step = num_batches_per_epoch * epoch + i_accum` with
`i_accum = i // args.accum_freq`. -/
def stepOf (nbpe epoch F i : Nat) : Nat := nbpe * epoch + i / F

/-- Whether iteration `i` of the loop reaches the gradient-finalization
block: the `accum_freq == 1` branch always does, the accumulating branch
`continue`s unless `(i + 1) % accum_freq == 0` (line 165). -/
def takesOptStep (F i : Nat) : Bool :=
  if F = 1 then true else (i + 1) % F = 0

/-- The event trace of one body iteration of the loop over the dataloader
(lines 115-223), for iteration index `i`.  Logging and checkpointing are
modelled separately (they touch no gradients). -/
def iterTrace (cfg : Config) (nbpe epoch i : Nat) : List Event :=
  (if cfg.skipScheduler then [] else [Event.schedulerCall (stepOf nbpe epoch cfg.accumFreq i)]) ++
  [Event.zeroGrad] ++
  (if cfg.accumFreq = 1 then
    [Event.modelForward true] ++
    (if cfg.distill then [Event.teacherForward] else []) ++
    [Event.lossCompute, Event.backward] ++
    (if modelIsLIFT cfg.modelName then [Event.clipNorm 1] else []) ++
    finalizeTrace cfg.scalerActive cfg.horovod cfg.gradClipNorm ++
    [Event.clampLogitScale]
  else
    [Event.modelForward false] ++
    (if (i + 1) % cfg.accumFreq = 0 then
      [Event.zeroGrad] ++
      (List.replicate cfg.accumFreq
        [Event.modelForward true, Event.lossCompute, Event.backward]).flatten ++
      finalizeTrace cfg.scalerActive cfg.horovod cfg.gradClipNorm ++
      [Event.clampLogitScale]
    else []))

/-- The list of step values passed to the scheduler over an epoch of `B`
dataloader iterations (line 119-120: called every iteration unless
`args.skip_scheduler`). -/
def schedulerSteps (skipScheduler : Bool) (nbpe epoch F B : Nat) : List Nat :=
  if skipScheduler then [] else (List.range B).map (stepOf nbpe epoch F)

/-- The iteration indices at which an optimizer step is taken during an
epoch of `B` dataloader iterations. -/
def optStepIters (F B : Nat) : List Nat :=
  (List.range B).filter (fun i => takesOptStep F i)

/-- The global step values at the optimizer-step iterations of an epoch. -/
def optStepValues (nbpe epoch F B : Nat) : List Nat :=
  (optStepIters F B).map (stepOf nbpe epoch F)

theorem buildLossInput_length {l : List α} {j : Nat} (hj : j < l.length) (fresh : α) :
    (buildLossInput l j fresh).length = l.length := by
  simp [buildLossInput]
  omega

theorem buildLossInput_getElem? {l : List α} {j : Nat} (hj : j < l.length)
    (fresh : α) (i : Nat) (hi : i < l.length) :
    (buildLossInput l j fresh)[i]? = if i = j then some fresh else l[i]? := by
  have hlen : (l.take j ++ [fresh]).length = j + 1 := by
    simp [List.length_take, Nat.min_eq_left (Nat.le_of_lt hj)]
  rcases lt_trichotomy i j with h | h | h
  · rw [if_neg (by omega)]
    rw [buildLossInput, List.getElem?_append_left (by omega)]
    rw [List.getElem?_append_left (by simp; omega)]
    simp [List.getElem?_take, h]
  · subst h
    rw [if_pos rfl]
    rw [buildLossInput, List.getElem?_append_left (by omega)]
    rw [List.getElem?_append_right (by simp)]
    simp [List.length_take, Nat.min_eq_left (Nat.le_of_lt hj)]
  · rw [if_neg (by omega)]
    rw [buildLossInput, List.getElem?_append_right (by omega)]
    rw [hlen, List.getElem?_drop l (j + 1) (i - (j + 1))]
    congr 1
    omega

theorem lookup_eq_none_of_hasKey_false {k : String} :
    ∀ {d : List (String × α)}, hasKey k d = false → d.lookup k = none := by
  intro d
  induction d with
  | nil => intro _; rfl
  | cons p ps ih =>
    intro h
    simp [hasKey] at h
    obtain ⟨h1, h2⟩ := h
    rw [show p = (p.1, p.2) from rfl, List.lookup_cons]
    have hb : (k == p.1) = false := by
      simp
      exact fun he => h1 he.symm
    rw [hb]
    exact ih (by simp [hasKey]; exact h2)

theorem lookup_mem_keys {k : String} {v : α} :
    ∀ {d : List (String × α)}, d.lookup k = some v → k ∈ d.map Prod.fst := by
  intro d
  induction d with
  | nil => intro h; simp [List.lookup] at h
  | cons p ps ih =>
    intro h
    rw [show p = (p.1, p.2) from rfl, List.lookup_cons] at h
    by_cases hk : k == p.1
    · simp at hk
      simp [hk]
    · rw [Bool.eq_false_iff.mpr hk] at h
      simp
      right
      simpa using ih h

theorem mem_keys_removeKey {k k' : String} {d : List (String × α)}
    (h : k ∈ (removeKey k' d).map Prod.fst) : k ∈ d.map Prod.fst :=
  ((List.filter_sublist d).map Prod.fst).mem h

theorem lookup_dictSet_of_hasKey {k : String} (v : α) :
    ∀ {d : List (String × α)}, hasKey k d = true →
      (d.map (fun p => if p.1 = k then (k, v) else p)).lookup k = some v := by
  intro d
  induction d with
  | nil => intro h; simp [hasKey] at h
  | cons p ps ih =>
    intro h
    by_cases hp : p.1 = k
    · simp only [List.map_cons, if_pos hp, List.lookup_cons]
      simp
    · simp only [List.map_cons, if_neg hp]
      rw [show p = (p.1, p.2) from rfl, List.lookup_cons]
      have hb : (k == p.1) = false := by
        simp
        exact fun he => hp he.symm
      rw [hb]
      apply ih
      simp [hasKey] at h ⊢
      rcases h with h | h
      · exact absurd h hp
      · exact h

theorem lookup_dictSet (d : List (String × α)) (k : String) (v : α) :
    (dictSet d k v).lookup k = some v := by
  unfold dictSet
  by_cases h : hasKey k d
  · rw [if_pos h]
    exact lookup_dictSet_of_hasKey v h
  · rw [if_neg h]
    rw [List.lookup_append, lookup_eq_none_of_hasKey_false (Bool.eq_false_iff.mpr h)]
    simp [List.lookup_cons]

/-- **C1.** In an accumulation window of size `K` (`accum_freq = K`), for
every micro-batch index `j < K` and every cached feature name, the loss
input built during the recomputation phase is the concatenation of the
cached (no-gradient) tensors for indices `0..j-1`, the freshly recomputed
gradient-bearing tensor for index `j`, and the cached tensors for indices
`j+1..K-1`, preserving original batch-slot order: the result has length
`K`, slot `j` holds the fresh tensor, and every other slot `i` holds the
cached tensor of micro-batch `i`. -/
theorem accum_loss_input_substitution (K j : Nat) (hj : j < K)
    (cached : Nat → α) (fresh : α) :
    (buildLossInput (phaseACache K cached) j fresh).length = K ∧
    ∀ i, i < K →
      (buildLossInput (phaseACache K cached) j fresh)[i]? =
        some (if i = j then fresh else cached i) := by
  have hlen : (phaseACache K cached).length = K := by
    rw [phaseACache_eq_map, List.length_map, List.length_range]
  have hj' : j < (phaseACache K cached).length := by rw [hlen]; exact hj
  constructor
  · rw [buildLossInput_length hj', hlen]
  · intro i hi
    rw [buildLossInput_getElem? hj' fresh i (by rw [hlen]; exact hi)]
    rw [phaseACache_eq_map]
    by_cases h : i = j
    · rw [if_pos h, if_pos h]
    · rw [if_neg h, if_neg h]
      simp [List.getElem?_map, List.getElem?_range, hi]

/-- Witness for `accum_loss_input_substitution`: window size 3, live slot 1,
micro-batch tensors tagged by their index, fresh tensor tagged 99. -/
theorem accum_loss_input_substitution_witness :
    1 < 3 ∧
    ((buildLossInput (phaseACache 3 (fun i => i)) 1 99).length = 3 ∧
     ∀ i, i < 3 →
       (buildLossInput (phaseACache 3 (fun i => i)) 1 99)[i]? =
         some (if i = 1 then 99 else i)) :=
  ⟨by decide, accum_loss_input_substitution 3 1 (by decide) (fun i => i) 99⟩

/-- **C4.** After every optimizer step (every iteration that reaches the
gradient-finalization block), the body performs the `logit_scale` clamp
right after the finalization block, and if the unwrapped model exposes a
`logit_scale` value `v` (the `hasattr` check, modelled by `some v`), the
value is replaced by `min (max v 0) ln100`, which lies in `[0, ln 100]`
regardless of the value the optimizer update produced; when the attribute
is absent nothing happens.  (The `torch.no_grad()` scope is not modelled:
it has no observable effect on the stored value.) -/
theorem logit_scale_clamped_after_step (cfg : Config) (nbpe epoch i : Nat)
    (hstep : takesOptStep cfg.accumFreq i = true) :
    (∃ pre, iterTrace cfg nbpe epoch i =
      pre ++ finalizeTrace cfg.scalerActive cfg.horovod cfg.gradClipNorm ++
        [Event.clampLogitScale]) ∧
    (∀ v : ℚ, postStepClamp (some v) = some (clampLogitScaleVal v) ∧
      0 ≤ clampLogitScaleVal v ∧ clampLogitScaleVal v ≤ ln100) ∧
    postStepClamp none = none := by
  refine ⟨?_, ?_, rfl⟩
  · by_cases hF : cfg.accumFreq = 1
    · refine ⟨(if cfg.skipScheduler then []
          else [Event.schedulerCall (stepOf nbpe epoch cfg.accumFreq i)]) ++
        [Event.zeroGrad, Event.modelForward true] ++
        (if cfg.distill then [Event.teacherForward] else []) ++
        [Event.lossCompute, Event.backward] ++
        (if modelIsLIFT cfg.modelName then [Event.clipNorm 1] else []), ?_⟩
      simp [iterTrace, hF, List.append_assoc]
    · have hmod : (i + 1) % cfg.accumFreq = 0 := by
        simpa [takesOptStep, hF] using hstep
      refine ⟨(if cfg.skipScheduler then []
          else [Event.schedulerCall (stepOf nbpe epoch cfg.accumFreq i)]) ++
        [Event.zeroGrad, Event.modelForward false, Event.zeroGrad] ++
        (List.replicate cfg.accumFreq
          [Event.modelForward true, Event.lossCompute, Event.backward]).flatten, ?_⟩
      simp [iterTrace, hF, hmod, List.append_assoc]
  · intro v
    refine ⟨rfl, ?_, min_le_right _ _⟩
    apply le_min
    · exact le_max_right v 0
    · norm_num [ln100]

/-- Witness for `logit_scale_clamped_after_step`: an accumulating config at
the window-closing iteration `i = 1`. -/
theorem logit_scale_clamped_after_step_witness :
    takesOptStep 2 1 = true ∧
    ((∃ pre, iterTrace ⟨2, "LIFT", false, true, false, some 1, false⟩ 1 0 1 =
      pre ++ finalizeTrace true false (some 1) ++ [Event.clampLogitScale]) ∧
    (∀ v : ℚ, postStepClamp (some v) = some (clampLogitScaleVal v) ∧
      0 ≤ clampLogitScaleVal v ∧ clampLogitScaleVal v ≤ ln100) ∧
    postStepClamp none = none) :=
  ⟨by decide,
    logit_scale_clamped_after_step ⟨2, "LIFT", false, true, false, some 1, false⟩ 1 0 1 (by decide)⟩

/-- **C7.** In every `LossDict` produced, when the loss function's output
does not itself contain a `"loss"` key, the synthesized `"loss"` entry
equals the sum of all other component entries, and the total loss passed to
`backward` is the sum of the component values computed before the `"loss"`
key is inserted: the dict after insertion is the original components
followed by the `"loss"` entry, looking up `"loss"` yields that sum, and
removing the `"loss"` entry recovers components whose values sum to the
backward total — so no component is double counted. -/
theorem loss_total_additivity (losses : LossDict)
    (hl : hasKey "loss" losses = false) :
    (withTotal losses).1 = sumValues losses ∧
    (withTotal losses).2 = losses ++ [("loss", sumValues losses)] ∧
    (withTotal losses).2.lookup "loss" = some (sumValues losses) ∧
    sumValues (removeKey "loss" (withTotal losses).2) = (withTotal losses).1 := by
  have happ : (withTotal losses).2 = losses ++ [("loss", sumValues losses)] := by
    simp only [withTotal, dictSet, hl]
    simp
  refine ⟨rfl, happ, ?_, ?_⟩
  · rw [happ, List.lookup_append, lookup_eq_none_of_hasKey_false hl]
    simp [List.lookup_cons]
  · rw [happ]
    unfold removeKey
    rw [List.filter_append]
    have h1 : losses.filter (fun p => p.1 ≠ "loss") = losses := by
      rw [List.filter_eq_self]
      intro p hp
      simp
      intro hcon
      rw [hasKey] at hl
      have hc : losses.any (fun q => q.1 = "loss") = true :=
        List.any_eq_true.mpr ⟨p, hp, by simp [hcon]⟩
      rw [hc] at hl
      exact Bool.noConfusion hl
    rw [h1]
    simp [withTotal]

/-- Witness for `loss_total_additivity` on a two-component loss dict. -/
theorem loss_total_additivity_witness :
    hasKey "loss" [("contrastive", (2 : ℚ)), ("distill", 3)] = false ∧
    ((withTotal [("contrastive", 2), ("distill", 3)]).1 =
        sumValues [("contrastive", 2), ("distill", 3)] ∧
     (withTotal [("contrastive", 2), ("distill", 3)]).2 =
        [("contrastive", 2), ("distill", 3)] ++
          [("loss", sumValues [("contrastive", 2), ("distill", 3)])] ∧
     (withTotal [("contrastive", 2), ("distill", 3)]).2.lookup "loss" =
        some (sumValues [("contrastive", 2), ("distill", 3)]) ∧
     sumValues (removeKey "loss" (withTotal [("contrastive", 2), ("distill", 3)]).2) =
        (withTotal [("contrastive", 2), ("distill", 3)]).1) :=
  ⟨by decide, loss_total_additivity [("contrastive", 2), ("distill", 3)] (by decide)⟩

/-- **C8.** During the accumulating recomputation phase, the fresh model
output must contain the key `"logit_scale"`: `popNoAccum` (lines 179-182)
fails — the fatal `KeyError`, with no recovery — exactly when the key is
absent; `"logit_bias"` is optional: when it is absent `inputs_no_accum`
holds only the logit scale, and when present it holds both. -/
theorem logit_scale_required_bias_optional (modelOut : List (String × α)) :
    ((∃ e, popNoAccum modelOut = Except.error e) ↔
      modelOut.lookup "logit_scale" = none) ∧
    (∀ ls, modelOut.lookup "logit_scale" = some ls →
      (removeKey "logit_scale" modelOut).lookup "logit_bias" = none →
      popNoAccum modelOut =
        Except.ok ([("logit_scale", ls)], removeKey "logit_scale" modelOut)) ∧
    (∀ ls lb, modelOut.lookup "logit_scale" = some ls →
      (removeKey "logit_scale" modelOut).lookup "logit_bias" = some lb →
      popNoAccum modelOut =
        Except.ok ([("logit_scale", ls), ("logit_bias", lb)],
          removeKey "logit_bias" (removeKey "logit_scale" modelOut))) := by
  refine ⟨?_, ?_, ?_⟩
  · constructor
    · rintro ⟨e, he⟩
      rcases hls : modelOut.lookup "logit_scale" with _ | ls
      · rfl
      · exfalso
        rcases hb : (removeKey "logit_scale" modelOut).lookup "logit_bias" with _ | lb <;>
          simp [popNoAccum, hls, hb] at he
    · intro h
      exact ⟨"KeyError: logit_scale", by simp [popNoAccum, h]⟩
  · intro ls hls hb
    simp [popNoAccum, hls, hb]
  · intro ls lb hls hb
    simp [popNoAccum, hls, hb]

/-- Witness for `logit_scale_required_bias_optional`: a fresh output that
lacks `logit_scale` is rejected with an error. -/
theorem logit_scale_required_bias_optional_witness :
    ([("image_features", (7 : Nat))].lookup "logit_scale" = none) ∧
    (∃ e, popNoAccum [("image_features", (7 : Nat))] = Except.error e) :=
  ⟨by decide,
    (logit_scale_required_bias_optional [("image_features", 7)]).1.mpr (by decide)⟩

/-- **C2 (amended).** Whenever mixed-precision scaling and gradient
clipping are both active, unscaling precedes clipping in the finalization
trace (both in the horovod and the non-horovod branch), so the clipping
norm is computed on unscaled gradients.  In the horovod branch the gradient
synchronization occurs exactly once per finalization — but *before*
unscaling, not after it: the trace begins `synchronize; unscale; ...`. -/
theorem unscale_before_clip_sync_once :
    (∀ (horovod : Bool) (c : ℚ), ∃ l1 l2 l3,
      finalizeTrace true horovod (some c) =
        l1 ++ Event.unscale :: (l2 ++ Event.clipNorm c :: l3)) ∧
    (∀ g : Option ℚ, (finalizeTrace true true g).count Event.hvdSynchronize = 1) ∧
    (∀ g : Option ℚ, ∃ rest,
      finalizeTrace true true g = Event.hvdSynchronize :: Event.unscale :: rest) := by
  refine ⟨?_, ?_, ?_⟩
  · intro horovod c
    cases horovod
    · exact ⟨[], [], [Event.scalerStep, Event.scalerUpdate], rfl⟩
    · exact ⟨[Event.hvdSynchronize], [], [Event.scalerStep, Event.scalerUpdate], rfl⟩
  · intro g
    cases g <;> simp [finalizeTrace, List.count_cons, List.count_nil]
  · intro g
    cases g
    · exact ⟨[Event.scalerStep, Event.scalerUpdate], rfl⟩
    · exact ⟨[Event.clipNorm _, Event.scalerStep, Event.scalerUpdate], rfl⟩

/-- **C2 counterexample.** With scaler, horovod and a clip norm all active,
`optimizer.synchronize()` is the first event of the finalization and
`scaler.unscale_` the second: synchronization happens *before* unscaling,
refuting the claim that it occurs after unscaling. -/
theorem sync_before_unscale_counterexample :
    (finalizeTrace true true (some 1)).indexOf Event.hvdSynchronize = 0 ∧
    (finalizeTrace true true (some 1)).indexOf Event.unscale = 1 := by
  decide

/-- **C5.** In the non-accumulating path (`accum_freq == 1`), whenever the
configured model name contains the substring `'LIFT'`, the trace clips the
gradients to max norm 1 immediately after `backward` — before the
finalization block and independently of `grad_clip_norm` (the config's clip
setting is arbitrary here) — and when `grad_clip_norm = some c` is also
configured, the finalization block additionally applies `clipNorm c`:
both policies are applied independently. -/
theorem lift_family_clip_after_backward (cfg : Config) (nbpe epoch i : Nat)
    (hF : cfg.accumFreq = 1) (hLIFT : modelIsLIFT cfg.modelName = true) :
    (∃ l1, iterTrace cfg nbpe epoch i =
      l1 ++ Event.backward :: Event.clipNorm 1 ::
        (finalizeTrace cfg.scalerActive cfg.horovod cfg.gradClipNorm ++
          [Event.clampLogitScale])) ∧
    (∀ c, cfg.gradClipNorm = some c →
      Event.clipNorm c ∈ finalizeTrace cfg.scalerActive cfg.horovod cfg.gradClipNorm) := by
  constructor
  · refine ⟨(if cfg.skipScheduler then []
        else [Event.schedulerCall (stepOf nbpe epoch cfg.accumFreq i)]) ++
      [Event.zeroGrad, Event.modelForward true] ++
      (if cfg.distill then [Event.teacherForward] else []) ++
      [Event.lossCompute], ?_⟩
    simp [iterTrace, hF, hLIFT, List.append_assoc]
  · intro c hc
    cases hs : cfg.scalerActive <;> cases hh : cfg.horovod <;>
      simp [finalizeTrace, hc]

/-- Witness for `lift_family_clip_after_backward`: a LIFT model name with
distillation, scaler, horovod and `grad_clip_norm = 2` all active. -/
theorem lift_family_clip_after_backward_witness :
    (Config.mk 1 "coca_LIFT-B-16" true true true (some 2) false).accumFreq = 1 ∧
    modelIsLIFT (Config.mk 1 "coca_LIFT-B-16" true true true (some 2) false).modelName = true ∧
    ((∃ l1, iterTrace (Config.mk 1 "coca_LIFT-B-16" true true true (some 2) false) 4 1 3 =
      l1 ++ Event.backward :: Event.clipNorm 1 ::
        (finalizeTrace true true (some 2) ++ [Event.clampLogitScale])) ∧
    (∀ c, (some (2 : ℚ)) = some c →
      Event.clipNorm c ∈ finalizeTrace true true (some 2))) :=
  ⟨rfl, by decide,
    lift_family_clip_after_backward
      (Config.mk 1 "coca_LIFT-B-16" true true true (some 2) false) 4 1 3 rfl (by decide)⟩

/-- **C10.** For every iteration of an epoch run with `accum_freq > 1`, the
frozen teacher model is never invoked — even when distillation is enabled
(the config's `distill` flag is arbitrary) — and the loss keyword arguments
of the recomputation phase carry only cached-feature keys and keys popped
from the fresh model output, so no `dist_`-prefixed key is merged into the
loss inputs (any loss-input key already names a cached feature or a fresh
model output). -/
theorem no_distillation_in_accum_path (cfg : Config) (nbpe epoch i : Nat)
    (hF : 2 ≤ cfg.accumFreq) :
    Event.teacherForward ∉ iterTrace cfg nbpe epoch i ∧
    (∀ (β : Type) (accumKeys : List String) (modelOut : List (String × β)) (k : String),
      k ∈ phaseBLossKeys accumKeys modelOut →
      k ∈ accumKeys ∨ k ∈ modelOut.map Prod.fst) := by
  constructor
  · have hF1 : ¬ cfg.accumFreq = 1 := by omega
    have hfin : Event.teacherForward ∉
        finalizeTrace cfg.scalerActive cfg.horovod cfg.gradClipNorm := by
      cases cfg.scalerActive <;> cases cfg.horovod <;>
        rcases cfg.gradClipNorm with _ | c <;> simp [finalizeTrace]
    by_cases hsk : cfg.skipScheduler <;>
      by_cases hm : (i + 1) % cfg.accumFreq = 0 <;>
        simp [iterTrace, hF1, hsk, hm, List.mem_flatten, List.mem_replicate] <;>
          exact hfin
  · intro β accumKeys modelOut k hk
    unfold phaseBLossKeys at hk
    rcases hpop : popNoAccum modelOut with e | pr
    · rw [hpop] at hk
      simp at hk
    · obtain ⟨noAccum, rest⟩ := pr
      rw [hpop] at hk
      simp only [List.mem_append] at hk
      rcases hk with hk | hk
      · exact Or.inl hk
      · right
        rcases hls : modelOut.lookup "logit_scale" with _ | ls
        · simp [popNoAccum, hls] at hpop
        · rcases hb : (removeKey "logit_scale" modelOut).lookup "logit_bias" with _ | lb
          · simp only [popNoAccum, hls, hb, Except.ok.injEq, Prod.mk.injEq] at hpop
            rw [← hpop.1] at hk
            simp at hk
            subst hk
            exact lookup_mem_keys hls
          · simp only [popNoAccum, hls, hb, Except.ok.injEq, Prod.mk.injEq] at hpop
            rw [← hpop.1] at hk
            simp at hk
            rcases hk with hk | hk
            · subst hk
              exact lookup_mem_keys hls
            · subst hk
              exact mem_keys_removeKey (lookup_mem_keys hb)

theorem takesOptStep_eq {F : Nat} (hF : 1 ≤ F) (i : Nat) :
    takesOptStep F i = decide ((i + 1) % F = 0) := by
  unfold takesOptStep
  by_cases h : F = 1
  · subst h
    simp [Nat.mod_one]
  · simp [h]

theorem optStepIters_eq {F : Nat} (hF : 1 ≤ F) (B : Nat) :
    optStepIters F B = (List.range (B / F)).map (fun k => F * k + (F - 1)) := by
  induction B with
  | zero => simp [optStepIters]
  | succ n ih =>
    unfold optStepIters at ih ⊢
    rw [List.range_succ, List.filter_append, ih]
    by_cases h : (n + 1) % F = 0
    · obtain ⟨m, hm⟩ := Nat.dvd_of_mod_eq_zero h
      have hm1 : 1 ≤ m := by
        rcases Nat.eq_zero_or_pos m with h0 | h1
        · rw [h0, Nat.mul_zero] at hm
          omega
        · exact h1
      have hmm0 : m - 1 + 1 = m := by omega
      have hsucc : F * (m - 1) + F = F * m := by
        calc F * (m - 1) + F = F * (m - 1 + 1) := by rw [Nat.mul_succ]
        _ = F * m := by rw [hmm0]
      have hdiv1 : (n + 1) / F = m := by
        rw [hm]
        exact Nat.mul_div_cancel_left m hF
      have hmm : m - 1 + 1 = m := by omega
      have hdivn : n / F = m - 1 := by
        apply Nat.div_eq_of_lt_le
        · rw [Nat.mul_comm]
          omega
        · rw [hmm, Nat.mul_comm]
          omega
      have htake : takesOptStep F n = true := by
        rw [takesOptStep_eq hF]
        simp [h]
      rw [hdiv1, hdivn, List.filter_cons, htake]
      conv_rhs => rw [← hmm, List.range_succ]
      rw [List.map_append]
      simp only [List.filter_nil, List.map_cons, List.map_nil, if_pos]
      congr 2
      omega
    · have htake : takesOptStep F n = false := by
        rw [takesOptStep_eq hF]
        simp [h]
      have hdiv : (n + 1) / F = n / F := by
        rw [Nat.succ_div, if_neg (fun hd => h (Nat.mod_eq_zero_of_dvd hd))]
        rfl
      rw [List.filter_cons, htake, hdiv]
      simp

theorem countP_div_eq {F : Nat} (hF : 1 ≤ F) (k B : Nat) :
    (List.range B).countP (fun i => i / F = k) =
      min B (F * (k + 1)) - min B (F * k) := by
  have hmono : F * k ≤ F * (k + 1) := Nat.mul_le_mul_left F (by omega)
  induction B with
  | zero => simp
  | succ n ih =>
    rw [List.range_succ, List.countP_append, ih]
    by_cases h : n / F = k
    · have h1 : F * k ≤ n := by
        rw [← h]
        exact Nat.mul_div_le n F
      have h2 : n < F * (k + 1) := by
        rw [← h]
        exact Nat.lt_mul_div_succ n hF
      simp [h]
      omega
    · have h3 : ¬ (F * k ≤ n ∧ n < F * (k + 1)) := by
        rintro ⟨h1, h2⟩
        exact h (Nat.div_eq_of_lt_le (by rw [Nat.mul_comm]; omega) (by rw [Nat.mul_comm]; omega))
      simp [h]
      omega

/-- **C3 (amended).** For an epoch over `B` dataloader micro-batches with
accumulation frequency `F ≥ 1`, exactly `⌊B/F⌋` optimizer steps are taken,
and the global step values at the optimizer-step iterations are exactly
`nbpe * epoch + 0, ..., nbpe * epoch + ⌊B/F⌋ - 1` in order — strictly
increasing with no repeats or gaps.  The scheduler, however, is invoked
once per *micro-batch* (length `B`), not once per optimizer step: each
in-epoch step value `nbpe * epoch + k` with `k < ⌊B/F⌋` is passed to the
scheduler exactly `F` times; when the scheduler is explicitly disabled
(`skip_scheduler`) it is never invoked. -/
theorem optimizer_step_count_and_values (nbpe epoch F B : Nat) (hF : 1 ≤ F) :
    (optStepIters F B).length = B / F ∧
    optStepValues nbpe epoch F B = (List.range (B / F)).map (fun k => nbpe * epoch + k) ∧
    (schedulerSteps false nbpe epoch F B).length = B ∧
    schedulerSteps true nbpe epoch F B = [] ∧
    (∀ k, k < B / F →
      (schedulerSteps false nbpe epoch F B).countP (fun s => s = nbpe * epoch + k) = F) := by
  refine ⟨?_, ?_, ?_, rfl, ?_⟩
  · rw [optStepIters_eq hF, List.length_map, List.length_range]
  · rw [optStepValues, optStepIters_eq hF, List.map_map]
    apply List.map_congr_left
    intro k hk
    simp only [Function.comp_apply, stepOf]
    congr 1
    rw [Nat.mul_add_div hF, Nat.div_eq_of_lt (show F - 1 < F by omega)]
    rfl
  · rw [schedulerSteps]
    simp
  · intro k hk
    have hss : schedulerSteps false nbpe epoch F B =
        (List.range B).map (stepOf nbpe epoch F) := by
      rw [schedulerSteps]
      simp
    rw [hss, List.countP_map]
    have hfun : ((fun s => decide (s = nbpe * epoch + k)) ∘ stepOf nbpe epoch F) =
        fun i => decide (i / F = k) := by
      funext i
      simp only [Function.comp_apply, stepOf, decide_eq_decide]
      omega
    rw [hfun, countP_div_eq hF]
    have h1 : F * (k + 1) ≤ B := by
      calc F * (k + 1) ≤ F * (B / F) := Nat.mul_le_mul_left F (by omega)
      _ ≤ B := Nat.mul_div_le B F
    have h2 : F * k + F = F * (k + 1) := by
      rw [Nat.mul_succ]
    omega

/-- **C3 counterexample.** With `B = 2` micro-batches, `accum_freq = 2`
(`num_batches_per_epoch = 1`), epoch 0: the scheduler is invoked twice with
the step value 0 (once per micro-batch), yet only one optimizer step with
value 0 is taken — refuting both "the scheduler is invoked exactly once per
step" and "strictly increasing with no repeats" for the scheduler's step
sequence. -/
theorem scheduler_repeats_counterexample :
    schedulerSteps false 1 0 2 2 = [0, 0] ∧
    (schedulerSteps false 1 0 2 2).countP (fun s => s = 0) = 2 ∧
    optStepValues 1 0 2 2 = [0] ∧
    (optStepIters 2 2).length = 1 := by
  decide

/-- Witness for `optimizer_step_count_and_values`: `B = 5`, `F = 2`,
`nbpe = 2`, `epoch = 3`. -/
theorem optimizer_step_count_and_values_witness :
    1 ≤ 2 ∧
    ((optStepIters 2 5).length = 5 / 2 ∧
     optStepValues 2 3 2 5 = (List.range (5 / 2)).map (fun k => 2 * 3 + k) ∧
     (schedulerSteps false 2 3 2 5).length = 5 ∧
     schedulerSteps true 2 3 2 5 = [] ∧
     (∀ k, k < 5 / 2 →
       (schedulerSteps false 2 3 2 5).countP (fun s => s = 2 * 3 + k) = 2)) :=
  ⟨by decide, optimizer_step_count_and_values 2 3 2 5 (by decide)⟩

/-- Witness for `no_distillation_in_accum_path`: an accumulating config
with distillation enabled. -/
theorem no_distillation_in_accum_path_witness :
    2 ≤ (Config.mk 2 "ViT-B-32" true false false none false).accumFreq ∧
    (Event.teacherForward ∉ iterTrace (Config.mk 2 "ViT-B-32" true false false none false) 1 0 1 ∧
    (∀ (β : Type) (accumKeys : List String) (modelOut : List (String × β)) (k : String),
      k ∈ phaseBLossKeys accumKeys modelOut →
      k ∈ accumKeys ∨ k ∈ modelOut.map Prod.fst)) :=
  ⟨by decide,
    no_distillation_in_accum_path (Config.mk 2 "ViT-B-32" true false false none false) 1 0 1 (by decide)⟩

theorem ckptRun_saveLogs_false (dp : Bool) (S : Nat) :
    ∀ N, ckptRun false dp S N = [] := by
  intro N
  induction N with
  | zero => rfl
  | succ n ih =>
    simp only [ckptRun, ih, ckptUpdate]
    simp

theorem mem_ckptRun {S : Nat} :
    ∀ N c, c ∈ ckptRun true false S N ↔ (1 ≤ c ∧ c ≤ N ∧ S ≠ 0 ∧ c % S = 0) := by
  intro N
  induction N with
  | zero =>
    intro c
    simp only [ckptRun, List.not_mem_nil, false_iff]
    omega
  | succ n ih =>
    intro c
    simp only [ckptRun, ckptUpdate]
    by_cases h : S ≠ 0 ∧ (n + 1) % S = 0
    · rw [if_pos ⟨trivial, h.1, h.2⟩, if_neg Bool.false_ne_true]
      rw [List.mem_append, ih]
      simp only [List.mem_singleton]
      constructor
      · rintro (⟨h1, h2, h3, h4⟩ | rfl)
        · exact ⟨h1, by omega, h3, h4⟩
        · exact ⟨by omega, by omega, h.1, h.2⟩
      · rintro ⟨h1, h2, h3, h4⟩
        by_cases hc : c ≤ n
        · exact Or.inl ⟨h1, hc, h3, h4⟩
        · exact Or.inr (by omega)
    · rw [if_neg (fun hcond => h ⟨hcond.2.1, hcond.2.2⟩), ih]
      constructor
      · rintro ⟨h1, h2, h3, h4⟩
        exact ⟨h1, by omega, h3, h4⟩
      · rintro ⟨h1, h2, h3, h4⟩
        refine ⟨h1, ?_, h3, h4⟩
        by_cases hc : c = n + 1
        · subst hc
          exact absurd ⟨h3, h4⟩ h
        · omega

theorem ckptRun_retention {S : Nat} (hS : S ≠ 0) :
    ∀ N, ckptRun true true S N = if N / S = 0 then [] else [S * (N / S)] := by
  intro N
  induction N with
  | zero => simp [ckptRun]
  | succ n ih =>
    simp only [ckptRun, ckptUpdate]
    by_cases h : (n + 1) % S = 0
    · rw [if_pos ⟨trivial, hS, h⟩, if_pos trivial]
      obtain ⟨m, hm⟩ := Nat.dvd_of_mod_eq_zero h
      have hm1 : 1 ≤ m := by
        rcases Nat.eq_zero_or_pos m with h0 | h1
        · rw [h0, Nat.mul_zero] at hm
          omega
        · exact h1
      have hmm : m - 1 + 1 = m := by omega
      have hsucc : S * (m - 1) + S = S * m := by
        calc S * (m - 1) + S = S * (m - 1 + 1) := by rw [Nat.mul_succ]
        _ = S * m := by rw [hmm]
      have hdiv1 : (n + 1) / S = m := by
        rw [hm]
        exact Nat.mul_div_cancel_left m (by omega)
      have hdivn : n / S = m - 1 := by
        apply Nat.div_eq_of_lt_le
        · rw [Nat.mul_comm]
          omega
        · rw [hmm, Nat.mul_comm]
          omega
      rw [ih, hdivn, hdiv1]
      have hne : ¬ (n + 1) = (n + 1) - S := by omega
      have hne2 : ¬ S * m = S * m - S := by omega
      by_cases hm2 : m - 1 = 0
      · rw [if_pos hm2, if_neg (show ¬ m = 0 by omega)]
        simp only [List.nil_append, List.filter_cons, List.filter_nil]
        simp [hne, hne2, hm]
      · rw [if_neg hm2, if_neg (show ¬ m = 0 by omega)]
        have he1 : S * (m - 1) = (n + 1) - S := by omega
        simp only [List.cons_append, List.nil_append, List.filter_cons, List.filter_nil, he1]
        simp [hne, hne2, hm]
    · rw [if_neg (fun hcond => h hcond.2.2), ih]
      have hdiv : (n + 1) / S = n / S := by
        rw [Nat.succ_div, if_neg (fun hd => h (Nat.mod_eq_zero_of_dvd hd))]
        rfl
      rw [hdiv]

/-- **C6.** A checkpoint is written exactly when checkpointing is enabled
(`save_logs`), the interval `S` is nonzero, and the completed step is a
multiple of `S` (the file is keyed by the completed step `step + 1`;
`ckptRun` processes completed steps `1..N`); when retain-latest-only is
configured, after the run only the checkpoint of the last completed
interval survives, and right after step `k*S` is written the checkpoint for
`(k-1)*S` no longer exists — its deletion targets exactly one interval
earlier, and deleting an absent file is a no-op in the model, not an
error. -/
theorem checkpoint_cadence_retention (S N : Nat) (hS : S ≠ 0) (hN : 1 ≤ N / S) :
    (∀ (saveLogs : Bool) (c : Nat), c ∈ ckptRun saveLogs false S N ↔
      (saveLogs = true ∧ 1 ≤ c ∧ c ≤ N ∧ c % S = 0)) ∧
    ckptRun true true S N = [S * (N / S)] ∧
    (∀ k, 2 ≤ k → S * (k - 1) ∉ ckptRun true true S (S * k)) := by
  refine ⟨?_, ?_, ?_⟩
  · intro saveLogs c
    cases saveLogs
    · rw [ckptRun_saveLogs_false]
      simp
    · rw [mem_ckptRun]
      constructor
      · rintro ⟨h1, h2, _, h4⟩
        exact ⟨rfl, h1, h2, h4⟩
      · rintro ⟨_, h1, h2, h4⟩
        exact ⟨h1, h2, hS, h4⟩
  · rw [ckptRun_retention hS, if_neg (by omega)]
  · intro k hk
    rw [ckptRun_retention hS]
    have hdiv : (S * k) / S = k := Nat.mul_div_cancel_left k (by omega)
    rw [hdiv, if_neg (by omega)]
    simp only [List.mem_singleton]
    intro hcon
    have hkk := Nat.eq_of_mul_eq_mul_left (show 0 < S by omega) hcon
    omega

/-- Witness for `checkpoint_cadence_retention`: `S = 2`, `N = 5`. -/
theorem checkpoint_cadence_retention_witness :
    (2 : Nat) ≠ 0 ∧ 1 ≤ 5 / 2 ∧
    ((∀ (saveLogs : Bool) (c : Nat), c ∈ ckptRun saveLogs false 2 5 ↔
      (saveLogs = true ∧ 1 ≤ c ∧ c ≤ 5 ∧ c % 2 = 0)) ∧
    ckptRun true true 2 5 = [2 * (5 / 2)] ∧
    (∀ k, 2 ≤ k → 2 * (k - 1) ∉ ckptRun true true 2 (2 * k))) :=
  ⟨by decide, by decide, checkpoint_cadence_retention 2 5 (by decide) (by decide)⟩

/-- **C9 (amended).** After each log emission the per-window timing meters
(batch time, data time) are reset — so at the next emission they reflect
only the current window — but the per-loss-component meters are *not*
reset: the emission updates the meter of a present key in place and its
count grows by the batch size, accumulating across every emission of the
epoch. -/
theorem log_window_reset_amended (lossesM : List (String × AverageMeter))
    (name : String) (m : AverageMeter) (v bs : ℚ) (btm dtm : AverageMeter)
    (hm : lossesM.lookup name = some m) :
    (logEmission lossesM [(name, v)] bs btm dtm).2.1 = AverageMeter.init ∧
    (logEmission lossesM [(name, v)] bs btm dtm).2.2 = AverageMeter.init ∧
    (logEmission lossesM [(name, v)] bs btm dtm).1.lookup name =
      some (m.update v bs) ∧
    (m.update v bs).count = m.count + bs := by
  refine ⟨rfl, rfl, ?_, rfl⟩
  simp only [logEmission, updateLossMeters, List.foldl_cons, List.foldl_nil, hm]
  exact lookup_dictSet _ _ _

/-- Witness for `log_window_reset_amended`: one prior meter for `"loss"`,
an emission sampling value 3 at batch size 1; the timing meters start from
a nonzero state and end reset. -/
theorem log_window_reset_amended_witness :
    ([("loss", AverageMeter.init)].lookup "loss" = some AverageMeter.init) ∧
    ((logEmission [("loss", AverageMeter.init)] [("loss", 3)] 1
        (AverageMeter.mk 7 7 7 1) (AverageMeter.mk 7 7 7 1)).2.1 = AverageMeter.init ∧
     (logEmission [("loss", AverageMeter.init)] [("loss", 3)] 1
        (AverageMeter.mk 7 7 7 1) (AverageMeter.mk 7 7 7 1)).2.2 = AverageMeter.init ∧
     (logEmission [("loss", AverageMeter.init)] [("loss", 3)] 1
        (AverageMeter.mk 7 7 7 1) (AverageMeter.mk 7 7 7 1)).1.lookup "loss" =
        some (AverageMeter.init.update 3 1) ∧
     (AverageMeter.init.update 3 1).count = AverageMeter.init.count + 1) :=
  ⟨by decide,
    log_window_reset_amended [("loss", AverageMeter.init)] "loss" AverageMeter.init 3 1
      (AverageMeter.mk 7 7 7 1) (AverageMeter.mk 7 7 7 1) (by decide)⟩

/-- **C9 counterexample.** Two consecutive emissions (values 3 then 5,
batch size 1, starting from no meters): after the second emission the
`"loss"` meter's count is 2 — it accumulated across both log windows —
whereas a meter reset after each emission would have count 1 at that point
(the count of `AverageMeter.init.update 5 1`), refuting the claim that the
per-loss running averages are reset after each emission. -/
theorem loss_meters_not_reset_counterexample :
    ((logEmission (logEmission [] [("loss", 3)] 1 AverageMeter.init AverageMeter.init).1
        [("loss", 5)] 1 AverageMeter.init AverageMeter.init).1.lookup "loss").map
          AverageMeter.count = some 2 ∧
    (AverageMeter.init.update 5 1).count = 1 := by
  have h1 : (logEmission [] [("loss", (3 : ℚ))] 1 AverageMeter.init AverageMeter.init).1 =
      [("loss", AverageMeter.init.update 3 1)] := by
    simp [logEmission, updateLossMeters, dictSet, hasKey]
  rw [h1]
  have h2 : (logEmission [("loss", AverageMeter.init.update 3 1)] [("loss", (5 : ℚ))] 1
      AverageMeter.init AverageMeter.init).1 =
      [("loss", (AverageMeter.init.update 3 1).update 5 1)] := by
    simp [logEmission, updateLossMeters, dictSet, hasKey, List.lookup_cons]
  rw [h2]
  constructor
  · simp only [List.lookup_cons, beq_self_eq_true, Option.map_some]
    norm_num [AverageMeter.update, AverageMeter.init]
  · norm_num [AverageMeter.update, AverageMeter.init]

end LIFT
